import Mathlib

set_option maxRecDepth 8192

/-!
Verification development for the witnessEx browser extension
(`src/background.js`).  JavaScript strings are modelled as `List Char`
(all characters handled by the program are in the Basic Multilingual
Plane, so UTF-16 code units and Unicode scalar values coincide on every
character class the code inspects).  Each JavaScript function is
translated into an executable Lean definition; the browser APIs
(storage, prompt, alert, popup, fetch) are modelled as an environment
plus an action trace for the orchestrator.
-/

/-- Strings are modelled as lists of characters. -/
abbrev Str := List Char

/-- Turns a Lean string literal into the `List Char` model. -/
def lit (s : String) : Str := s.data

/-- Scalar value of a character as a natural number. -/
def charNat (c : Char) : Nat := c.toNat

/-- Characters matched by the JS regex `[#_()]` (background.js line 15). -/
def isUnwantedSymbol (c : Char) : Bool :=
  c == '#' || c == '_' || c == '(' || c == ')'

/-- Characters matched by `[​-‏‪-‮⁠﻿]`
(background.js line 18): zero-width, invisible and bidi-control characters. -/
def isZeroWidth (c : Char) : Bool :=
  (0x200B ≤ charNat c && charNat c ≤ 0x200F) ||
  (0x202A ≤ charNat c && charNat c ≤ 0x202E) ||
  charNat c == 0x2060 || charNat c == 0xFEFF

/-- Characters matched by
`[ؐ-ًؚ-ٰٟۖ-ۭـ]`
(background.js line 31): Arabic diacritics and tatweel. -/
def isArabicDiacritic (c : Char) : Bool :=
  (0x0610 ≤ charNat c && charNat c ≤ 0x061A) ||
  (0x064B ≤ charNat c && charNat c ≤ 0x065F) ||
  charNat c == 0x0670 ||
  (0x06D6 ≤ charNat c && charNat c ≤ 0x06ED) ||
  charNat c == 0x0640

/-- Characters matched by `[٠-٩]` (background.js line 34): Arabic-Indic
digits U+0660 to U+0669. -/
def isArabicIndicDigit (c : Char) : Bool :=
  0x0660 ≤ charNat c && charNat c ≤ 0x0669

/-- Characters matched by `[0-9]` (background.js line 37). -/
def isLatinDigit (c : Char) : Bool :=
  0x30 ≤ charNat c && charNat c ≤ 0x39

/-- Characters matched by the JavaScript regex class `\s` and removed by
`String.prototype.trim`: ASCII whitespace, NBSP, Ogham space, the
U+2000 block spaces, line/paragraph separators, narrow/medium spaces,
ideographic space and the BOM. -/
def isJsWs (c : Char) : Bool :=
  charNat c == 0x9 || charNat c == 0xA || charNat c == 0xB ||
  charNat c == 0xC || charNat c == 0xD || charNat c == 0x20 ||
  charNat c == 0xA0 || charNat c == 0x1680 ||
  (0x2000 ≤ charNat c && charNat c ≤ 0x200A) ||
  charNat c == 0x2028 || charNat c == 0x2029 || charNat c == 0x202F ||
  charNat c == 0x205F || charNat c == 0x3000 || charNat c == 0xFEFF

/-- Model of `str.replace(/class/g, "r")` for a single-character
replacement `r`: every matching character is replaced by `r`. -/
def replaceChars (p : Char → Bool) (r : Char) (s : Str) : Str :=
  s.map (fun c => if p c then r else c)

/-- Model of `str.replace(/class/g, "")`: every matching character is
deleted. -/
def deleteChars (p : Char → Bool) (s : Str) : Str :=
  s.filter (fun c => !(p c))

/-- Model of `str.replace(/class/g, f)` where the replacement callback
returns a single character computed from the match. -/
def mapChars (p : Char → Bool) (f : Char → Char) (s : Str) : Str :=
  s.map (fun c => if p c then f c else c)

/-- Model of `str.replace(/\s+/g, " ")`: each maximal run of JS
whitespace collapses to a single space. -/
def collapseWs : Str → Str
  | [] => []
  | [c] => if isJsWs c then [' '] else [c]
  | c :: d :: t =>
    if isJsWs c && isJsWs d then collapseWs (d :: t)
    else (if isJsWs c then ' ' else c) :: collapseWs (d :: t)

/-- Removes leading JS whitespace (left half of `String.prototype.trim`). -/
def trimLeft : Str → Str
  | [] => []
  | c :: t => if isJsWs c then trimLeft t else c :: t

/-- Removes trailing JS whitespace (right half of `String.prototype.trim`). -/
def trimRight : Str → Str
  | [] => []
  | c :: t =>
    match trimRight t with
    | [] => if isJsWs c then [] else [c]
    | r => c :: r

/-- Model of `String.prototype.trim`. -/
def jsTrim (s : Str) : Str := trimRight (trimLeft s)

/-- Callback of background.js line 34: an Arabic-Indic digit is sent to
the Persian digit with the same positional index in `"۰۱۲۳۴۵۶۷۸۹"`. -/
def arabicToPersianDigit (c : Char) : Char :=
  Char.ofNat (0x06F0 + (charNat c - 0x0660))

/-- Callback of background.js line 37: `"۰۱۲۳۴۵۶۷۸۹"[d.charCodeAt(0) - 48]`. -/
def latinToPersianDigit (c : Char) : Char :=
  Char.ofNat (0x06F0 + (charNat c - 0x30))

/-- Translation of `normalizePersian` (background.js lines 9-43).  The
guard `if (!text) return ""` is the empty-string case here; the
null/undefined case is `normalizePersianJS`. -/
def normalizePersian (text : Str) : Str :=
  if text = [] then []
  else
    let s1 := replaceChars isUnwantedSymbol ' ' text
    let s2 := replaceChars isZeroWidth ' ' s1
    let s3 := replaceChars (fun c => c == 'ي') 'ی' s2
    let s4 := replaceChars (fun c => c == 'ك') 'ک' s3
    let s5 := replaceChars (fun c => c == 'ة') 'ه' s4
    let s6 := replaceChars (fun c => c == 'ؤ') 'و' s5
    let s7 := replaceChars (fun c => c == 'إ' || c == 'أ' || c == 'ٱ') 'ا' s6
    let s8 := deleteChars (fun c => c == '،') s7
    let s9 := deleteChars (fun c => c == ',') s8
    let s10 := deleteChars isArabicDiacritic s9
    let s11 := mapChars isArabicIndicDigit arabicToPersianDigit s10
    let s12 := mapChars isLatinDigit latinToPersianDigit s11
    jsTrim (collapseWs s12)

/-- `normalizePersian` on a possibly null/undefined argument: the guard
`if (!text) return ""` maps nullish input to the empty string. -/
def normalizePersianJS : Option Str → Str
  | none => []
  | some t => normalizePersian t

/-- Model of `str.replace(/c/g, r)` where the replacement `r` is a
string: every occurrence of the character `c` expands to `r`. -/
def expandChar (c : Char) (r : Str) (s : Str) : Str :=
  s.flatMap (fun d => if d = c then r else [d])

/-- The apostrophe character (U+0027). -/
def aposChar : Char := Char.ofNat 39

/-- Translation of `escapeHtml` (background.js lines 45-52):
`String(str ?? "")` followed by the five sequential global replaces,
ampersand first. -/
def escapeHtml (v : Option Str) : Str :=
  let s0 := v.getD []
  let s1 := expandChar '&' (lit ("&amp;")) s0
  let s2 := expandChar '<' (lit ("&lt;")) s1
  let s3 := expandChar '>' (lit ("&gt;")) s2
  let s4 := expandChar '"' (lit ("&quot;")) s3
  expandChar aposChar (lit ("&#039;")) s4

/-- Single-pass entity map: what each input character of `escapeHtml`
should contribute to the output when no double-escaping happens. -/
def htmlEntity (c : Char) : Str :=
  if c = '&' then lit ("&amp;")
  else if c = '<' then lit ("&lt;")
  else if c = '>' then lit ("&gt;")
  else if c = '"' then lit ("&quot;")
  else if c = aposChar then lit ("&#039;")
  else [c]

example : normalizePersian (lit ("١٢٣")) = lit ("۱۲۳") := by decide
example : normalizePersian (lit ("علي")) = lit ("علی") := by decide
example : normalizePersian (lit (" a  b_c ")) = lit ("a b c") := by decide
example : escapeHtml (some (lit ("<b>&") ++ [aposChar, '"'])) =
    lit ("&lt;b&gt;&amp;&#039;&quot;") := by decide
example : escapeHtml none = [] := by decide

/-- Decimal representation of a natural number, as in JS template
interpolation of a non-negative number. -/
def natToStr (n : Nat) : Str := (Nat.repr n).data

/-- Decimal representation of an integer, as in JS template
interpolation of an integer number. -/
def intToStr (n : Int) : Str := (Int.repr n).data

/-- ASCII model of `String.prototype.toLowerCase` (the program only
compares against the ASCII text "invalid api key" / "true"). -/
def jsToLower (c : Char) : Char :=
  if 65 ≤ charNat c && charNat c ≤ 90 then Char.ofNat (charNat c + 32) else c

/-- Lowercases a string, character by character. -/
def lowerStr (s : Str) : Str := s.map jsToLower

/-- Model of `raw.slice(0, 500)`. -/
def slice500 (s : Str) : Str := s.take 500

/-- Boolean prefix test on character lists. -/
def isPrefixB : Str → Str → Bool
  | [], _ => true
  | _ :: _, [] => false
  | a :: as, b :: bs => a == b && isPrefixB as bs

/-- Model of `haystack.includes(pattern)`. -/
def strIncludes : Str → Str → Bool
  | [], pat => pat.isEmpty
  | h :: t, pat => isPrefixB pat (h :: t) || strIncludes t pat

/-- Index of the first occurrence of `pat` in a string (length of the
string when absent); used only to state ordering of substrings. -/
def firstIdx (pat : Str) : Str → Nat
  | [] => 0
  | h :: t => if isPrefixB pat (h :: t) then 0 else firstIdx pat t + 1

/-- UTF-8 bytes of a Unicode scalar value. -/
def utf8Bytes (c : Char) : List Nat :=
  let n := charNat c
  if n < 0x80 then [n]
  else if n < 0x800 then [0xC0 + n / 64, 0x80 + n % 64]
  else if n < 0x10000 then
    [0xE0 + n / 4096, 0x80 + n / 64 % 64, 0x80 + n % 64]
  else
    [0xF0 + n / 262144, 0x80 + n / 4096 % 64, 0x80 + n / 64 % 64,
     0x80 + n % 64]

/-- Uppercase hexadecimal digit. -/
def hexDigitChar (k : Nat) : Char :=
  if k < 10 then Char.ofNat (48 + k) else Char.ofNat (55 + k)

/-- Percent-encoding of one byte, e.g. `%DB`. -/
def pctByte (b : Nat) : Str :=
  ['%', hexDigitChar (b / 16), hexDigitChar (b % 16)]

/-- Characters `encodeURIComponent` leaves unescaped:
`A-Z a-z 0-9 - _ . ! ~ * ' ( )`. -/
def isUriUnreserved (c : Char) : Bool :=
  (65 ≤ charNat c && charNat c ≤ 90) || (97 ≤ charNat c && charNat c ≤ 122) ||
  isLatinDigit c || c == '-' || c == '_' || c == '.' || c == '!' ||
  c == '~' || c == '*' || c == aposChar || c == '(' || c == ')'

/-- Model of the JS builtin `encodeURIComponent`: unreserved characters
pass through, every other character is replaced by the uppercase
percent-encoding of its UTF-8 bytes. -/
def encodeURIComponent (s : Str) : Str :=
  s.flatMap (fun c =>
    if isUriUnreserved c then [c] else (utf8Bytes c).flatMap pctByte)

/-- Dynamically typed JSON field value, as far as the program inspects
one: lines 205-210 of background.js compare the `exist`/`exists` field
against a string, a number and a boolean, and stringify it otherwise.
`undef` is an absent field; `null` is a JSON null. -/
inductive JSVal where
  | undef
  | null
  | str (s : Str)
  | num (n : Int)
  | bool (b : Bool)
deriving DecidableEq

/-- Model of the JS builtin `String(v)` on a `JSVal`. -/
def jsToString : JSVal → Str
  | JSVal.undef => lit ("undefined")
  | JSVal.null => lit ("null")
  | JSVal.str s => s
  | JSVal.num n => intToStr n
  | JSVal.bool b => if b then lit ("true") else lit ("false")

/-- One candidate record of the lookup response (spec §3 `Match`).
Every field is optional; `none` is an absent (undefined) field. -/
structure MatchRec where
  fullName : Option Str
  isDeleted : Option Str
  updated : Option Str
  city : Option Str
  detentionStatus : Option Str
  age : Option Str
  link : Option Str
  thumbnail : Option Str
deriving DecidableEq

/-- Decoded JSON envelope of a lookup response.  `existF` models the
`exist` field and `existsF` the `exists` field (JS allows both; line 205
reads `parsed.exist ?? parsed.exists`).  `error` is the server error
string, `none` when absent. -/
structure Parsed where
  error : Option Str
  existF : JSVal
  existsF : JSVal
  count : Option Int
  matchesF : Option (List MatchRec)
deriving DecidableEq

/-- Line 205: `const existVal = parsed.exist ?? parsed.exists` — the
nullish-coalescing operator falls through on both undefined and null. -/
def existVal (p : Parsed) : JSVal :=
  match p.existF with
  | JSVal.undef => p.existsF
  | JSVal.null => p.existsF
  | v => v

/-- Lines 206-210: the response is treated as a hit exactly when
`existVal === "1" || existVal === 1 || existVal === true ||
String(existVal).toLowerCase() === "true"`. -/
def existsOf (p : Parsed) : Bool :=
  existVal p == JSVal.str (lit ("1")) ||
  existVal p == JSVal.num 1 ||
  existVal p == JSVal.bool true ||
  lowerStr (jsToString (existVal p)) == lit ("true")

/-- Truthiness of the JS expression `parsed && parsed.error` for a
string-valued `error` field: present and non-empty. -/
def errTruthy : Option Str → Bool
  | none => false
  | some e => !e.isEmpty

/-- Line 224: `const count = parsed.count || parsed.matches.length` —
`||` falls back on a missing or zero count. -/
def countVal (p : Parsed) (ms : List MatchRec) : Int :=
  match p.count with
  | some n => if n = 0 then (ms.length : Int) else n
  | none => (ms.length : Int)

/-- Fixed leading part of the popup page (template literal, lines
213-221). -/
def headerHtml : Str :=
  lit ("\n      <html>\n        <head>\n          <meta charset=\"utf-8\" />\n          <title>Witness Report Search</title>\n        </head>\n        <body style=\"font-family:sans-serif; padding:14px; line-height:1.45;\">\n          <h2 style=\"margin:0 0 10px 0;\">Witness Report Search</h2>\n    ")

/-- Fixed trailing part of the popup page (lines 296-300). -/
def footerHtml : Str :=
  lit ("\n\n        </body>\n      </html>\n    ")

/-- Count banner text of line 229:
`FOUND ${count} MATCH${count > 1 ? "ES" : ""}`. -/
def bannerCore (count : Int) : Str :=
  lit ("FOUND ") ++ intToStr count ++ lit (" MATCH") ++
  (if 1 < count then lit ("ES") else [])

/-- Found-banner block of the template literal at lines 226-236. -/
def bannerHtml (count : Int) (name : Str) : Str :=
  lit ("\n        <div style=\"margin-bottom:10px;\">\n          <div style=\"font-size:16px; font-weight:700;\">\n            ✅ ") ++
  bannerCore count ++
  lit ("\n          </div>\n          <div style=\"margin-top:6px; color:#444;\">\n            Search: <b>") ++
  escapeHtml (some name) ++
  lit ("</b>\n          </div>\n        </div>\n        <hr />\n      ")

/-- `href` attribute with the URL passed through `escapeHtml`, as in
lines 274 and 291. -/
def hrefAttr (url : Str) : Str :=
  lit ("href=\"") ++ escapeHtml (some url) ++ lit ("\"")

/-- Index prefix of one match block (line 262):
`${index + 1}. ${fullName}`. -/
def blockHead (index : Nat) (fullName : Str) : Str :=
  natToStr (index + 1) ++ lit (". ") ++ fullName

/-- One match block of the popup (body of the `forEach` at lines
238-283).  The dead locals `linkForCopy` (line 272) have no effect on
the output and are omitted. -/
def blockFor (index : Nat) (m : MatchRec) : Str :=
  let fullName := escapeHtml m.fullName
  let isDeleted := escapeHtml m.isDeleted
  let updated := escapeHtml m.updated
  let city := escapeHtml (some (m.city.getD []))
  let link := jsTrim (m.link.getD [])
  let thumbnail := jsTrim (m.thumbnail.getD [])
  let detentionStatus := escapeHtml (some (m.detentionStatus.getD []))
  let age := escapeHtml (some (m.age.getD []))
  lit ("\n          <div style=\"margin:10px 0; display:flex; gap:12px;\">\n        ") ++
  (if thumbnail.isEmpty then [] else
    lit ("\n            <div style=\"flex-shrink:0;\">\n              <img src=\"") ++
    escapeHtml (some thumbnail) ++
    lit ("\" alt=\"Photo\" style=\"width:80px; height:80px; object-fit:cover; border-radius:4px; border:1px solid #ddd;\" />\n            </div>\n          ")) ++
  lit ("\n            <div style=\"flex:1;\">\n              <div style=\"font-weight:700;\">") ++
  blockHead index fullName ++
  lit ("</div>\n              <div style=\"color:") ++
  (if isDeleted == lit ("1") then lit ("red") else lit ("green")) ++
  lit ("; font-weight:600;\">\n          ") ++
  (if isDeleted == lit ("1") then lit ("Deleted") else lit ("Active")) ++
  lit (" ") ++
  (if detentionStatus.isEmpty then [] else
    lit ("[") ++ detentionStatus ++ lit ("]")) ++
  lit ("\n              </div>\n              <div>Updated: ") ++
  updated ++
  lit ("</div>\n              ") ++
  (if city.isEmpty then [] else lit ("<div>City: ") ++ city ++ lit ("</div>")) ++
  lit ("\n              ") ++
  (if !age.isEmpty && !(age == lit ("0")) then
    lit ("<div>Age: ") ++ age ++ lit ("</div>") else []) ++
  lit ("\n              \n        ") ++
  (if link.isEmpty then [] else
    lit ("<div>\n            <a ") ++ hrefAttr link ++
    lit (" target=\"_blank\" rel=\"noopener noreferrer\">link</a>\n          </div>")) ++
  lit ("\n            </div>\n          </div>\n          <hr />\n        ")

/-- Found branch of the popup body (lines 223-283): count banner
followed by one block per match in list order with its 0-based
`forEach` index. -/
def foundHtml (name : Str) (p : Parsed) (ms : List MatchRec) : Str :=
  bannerHtml (countVal p ms) name ++
  (ms.enum.map (fun im => blockFor im.1 im.2)).flatten

/-- Line 286: `https://www.google.com/search?q=${encodeURIComponent(name)}`. -/
def googleSearchUrl (name : Str) : Str :=
  lit ("https://www.google.com/search?q=") ++ encodeURIComponent name

/-- Not-found branch of the popup body (lines 284-294).  The dead local
`nameForCopy` (line 285) has no effect on the output and is omitted. -/
def notFoundHtml (name : Str) : Str :=
  lit ("\n        <div style=\"font-size:16px; font-weight:700;\">❌ NOT FOUND</div>\n        <div style=\"margin-top:6px;\">Name: <b>") ++
  escapeHtml (some name) ++
  lit ("</b></div>\n        <div style=\"margin-top:12px;\">\n          <a ") ++
  hrefAttr (googleSearchUrl name) ++
  lit (" target=\"_blank\" rel=\"noopener noreferrer\" style=\"padding:8px 16px; border:1px solid #4285f4; border-radius:4px; background:#4285f4; color:white; text-decoration:none; display:inline-block; font-size:14px;\">🔍 Search on Google</a>\n        </div>\n      ")

/-- Line 223 branch condition:
`exists && parsed.matches && parsed.matches.length > 0` (an absent
`matches` field is falsy; a present array is truthy). -/
def foundCond (p : Parsed) : Bool :=
  existsOf p &&
  (match p.matchesF with
   | some ms => decide (0 < ms.length)
   | none => false)

/-- Full popup document built by lines 213-300 from the normalized name
and the decoded response. -/
def buildHtml (name : Str) (p : Parsed) : Str :=
  headerHtml ++
  (if foundCond p then foundHtml name p (p.matchesF.getD [])
   else notFoundHtml name) ++
  footerHtml

/-- One HTTP exchange as the orchestrator observes it: `ok` and
`status` from the `fetch` response, `raw` the body text, and `parsed`
the result of `JSON.parse(raw)` (`none` when parsing throws). -/
structure HttpResp where
  ok : Bool
  status : Nat
  raw : Str
  parsed : Option Parsed
deriving DecidableEq

/-- Observable side effects of one context-menu event flow. -/
inductive Act where
  | setKey (k : Str)
  | prompt
  | alert (msg : Str)
  | fetch (name apikey : Str)
  | popup (html : Str)
deriving DecidableEq

/-- Environment of one event flow: the stored credential, the
successive raw values the user types into `window.prompt`, and the
successive responses returned by `fetch`. -/
structure Env where
  storedKey : Str
  prompts : List Str
  responses : List HttpResp
deriving DecidableEq

/-- Placeholder response when the environment provides none (never
relevant to the claims, which fix the response list). -/
def defaultResp : HttpResp := HttpResp.mk false 0 [] none

/-- Response consumed by the first `fetch` of a flow. -/
def firstResp : List HttpResp → HttpResp
  | [] => defaultResp
  | r :: _ => r

/-- Response consumed by the retry `fetch` of a flow. -/
def secondResp : List HttpResp → HttpResp
  | [] => defaultResp
  | [_] => defaultResp
  | _ :: r :: _ => r

/-- Raw value the next `window.prompt` returns (empty when the user
cancels). -/
def firstPrompt : List Str → Str
  | [] => []
  | p :: _ => p

/-- Result of `promptForApiKey` (lines 69-80): the prompt value is
trimmed; cancel or an all-whitespace entry yields the empty string. -/
def promptResult (prompts : List Str) : Str := jsTrim (firstPrompt prompts)

/-- Line 154 / line 184 test: the decoded response carries a truthy
`error` whose lowercased text contains "invalid api key". -/
def invalidKeyErr (p : Parsed) : Bool :=
  errTruthy p.error &&
  strIncludes (lowerStr (p.error.getD [])) (lit ("invalid api key"))

/-- Alert text of line 156. -/
def msgInvalidKey : Str := lit ("Invalid API key. Please enter a new one.")

/-- Alert text of lines 127 and 161. -/
def msgKeyRequired : Str := lit ("API key is required.")

/-- Error message `Response not JSON. HTTP ${status}\n${raw.slice(0,500)}`
(lines 148 and 180). -/
def msgNotJson (status : Nat) (raw : Str) : Str :=
  lit ("Response not JSON. HTTP ") ++ natToStr status ++ lit ("\n") ++
  slice500 raw

/-- Error message `HTTP ${status}\n${raw.slice(0,500)}` (lines 190 and
202). -/
def msgHttp (status : Nat) (raw : Str) : Str :=
  lit ("HTTP ") ++ natToStr status ++ lit ("\n") ++ slice500 raw

/-- Body of the `try` block from the first `fetch` on (lines 133-302),
entered with the API key in hand.  Returns the action trace and either
normal completion or the thrown error message.  The first `fetch`
consumes the first response; the retry (lines 167-181) consumes the
second response and the next prompt value.  Note that line 201 tests
`res.ok` of the FIRST response even after a successful retry. -/
def afterKey (name apiKey : Str) (prompts : List Str)
    (resps : List HttpResp) : List Act × Except Str Unit :=
  let res := firstResp resps
  match res.parsed with
  | none =>
    ([Act.fetch name apiKey], Except.error (msgNotJson res.status res.raw))
  | some parsed =>
    if invalidKeyErr parsed then
      let newApiKey := promptResult prompts
      if newApiKey = [] then
        ([Act.fetch name apiKey, Act.setKey [],
          Act.alert msgInvalidKey, Act.prompt,
          Act.alert msgKeyRequired], Except.ok ())
      else
        let base := [Act.fetch name apiKey, Act.setKey [],
          Act.alert msgInvalidKey, Act.prompt,
          Act.setKey newApiKey, Act.fetch name newApiKey]
        let retryRes := secondResp resps
        match retryRes.parsed with
        | none => (base, Except.error (msgNotJson retryRes.status retryRes.raw))
        | some parsed2 =>
          if invalidKeyErr parsed2 then
            (base ++ [Act.setKey []],
             Except.error (lit ("Server error: Invalid API key")))
          else if !retryRes.ok && !errTruthy parsed2.error then
            (base, Except.error (msgHttp retryRes.status retryRes.raw))
          else if errTruthy parsed2.error then
            (base, Except.error (lit ("Server error: ") ++ (parsed2.error.getD [])))
          else if !res.ok then
            (base, Except.error (msgHttp res.status res.raw))
          else
            (base ++ [Act.popup (buildHtml name parsed2)], Except.ok ())
    else if errTruthy parsed.error then
      ([Act.fetch name apiKey],
       Except.error (lit ("Server error: ") ++ (parsed.error.getD [])))
    else if !res.ok then
      ([Act.fetch name apiKey], Except.error (msgHttp res.status res.raw))
    else
      ([Act.fetch name apiKey, Act.popup (buildHtml name parsed)],
       Except.ok ())

/-- Body of the `try` block (lines 121-302): load the credential, on
first run prompt for one (abort with a notice when the user cancels),
persist it, then proceed to the lookup. -/
def runTry (name : Str) (env : Env) : List Act × Except Str Unit :=
  if env.storedKey = [] then
    let k := promptResult env.prompts
    if k = [] then
      ([Act.prompt, Act.alert msgKeyRequired], Except.ok ())
    else
      let rest := afterKey name k (env.prompts.tail) env.responses
      (Act.prompt :: Act.setKey k :: rest.1, rest.2)
  else
    afterKey name env.storedKey env.prompts env.responses

/-- One full context-menu event flow (listener at lines 112-306): the
selection is trimmed and normalized; an empty result aborts silently;
any error thrown inside the `try` block surfaces as the catch-all alert
of line 304. -/
def run (selection : Str) (env : Env) : List Act :=
  let name := normalizePersian (jsTrim selection)
  if name = [] then []
  else
    match runTry name env with
    | (acts, Except.ok _) => acts
    | (acts, Except.error e) =>
      acts ++ [Act.alert (lit ("Error checking name:\n") ++ e)]

/-- Number of lookup requests in a trace. -/
def countFetch (tr : List Act) : Nat :=
  (tr.filter (fun a => match a with
    | Act.fetch _ _ => true
    | _ => false)).length

/-- Number of popup windows opened in a trace. -/
def countPopup (tr : List Act) : Nat :=
  (tr.filter (fun a => match a with
    | Act.popup _ => true
    | _ => false)).length

/-- Characters that survive the rewriting stages of `normalizePersian`:
not a stripped symbol, not zero-width, not one of the Arabic variant
letters, not a comma, not a diacritic and not an Arabic-Indic or Latin
digit. -/
def cleanNonWs (c : Char) : Bool :=
  !isUnwantedSymbol c && !isZeroWidth c &&
  !(c == 'ي') && !(c == 'ك') && !(c == 'ة') && !(c == 'ؤ') &&
  !(c == 'إ' || c == 'أ' || c == 'ٱ') &&
  !(c == '،') && !(c == ',') &&
  !isArabicDiacritic c && !isArabicIndicDigit c && !isLatinDigit c

/-- No two adjacent JS-whitespace characters. -/
def singleSpaced : Str → Bool
  | [] => true
  | [_] => true
  | a :: b :: t => !(isJsWs a && isJsWs b) && singleSpaced (b :: t)

/-- Modelled from the spec: "a string guaranteed to contain only
Persian letters/digits/spaces" — a Persian letter, read generously as
any character of the Arabic Unicode block U+0600-U+06FF. -/
def specPersianLetter (c : Char) : Bool :=
  0x0600 ≤ charNat c && charNat c ≤ 0x06FF

/-- Persian digits U+06F0-U+06F9. -/
def isPersianDigit (c : Char) : Bool :=
  0x06F0 ≤ charNat c && charNat c ≤ 0x06F9

/-- Sample match: active, with city and age, no link or thumbnail.
Fields: fullName, isDeleted, updated, city, detentionStatus, age, link,
thumbnail. -/
def sampleMatchA : MatchRec :=
  MatchRec.mk (some (lit ("Ali"))) (some (lit ("0")))
    (some (lit ("2024-01-01"))) (some (lit ("Tehran"))) none
    (some (lit ("30"))) none none

/-- Sample match: deleted, detained, with link. -/
def sampleMatchB : MatchRec :=
  MatchRec.mk (some (lit ("Reza"))) (some (lit ("1")))
    (some (lit ("2023-05-02"))) none (some (lit ("Detained"))) none
    (some (lit ("https://example.com/r"))) none

/-- Sample decoded response with `exist:"1"` and two matches.  Fields:
error, exist, exists, count, matches. -/
def sampleFound2 : Parsed :=
  Parsed.mk none (JSVal.str (lit ("1"))) JSVal.undef none
    (some [sampleMatchA, sampleMatchB])

/-- Sample decoded response with `exists:false` and an empty match
list. -/
def sampleNotFound : Parsed :=
  Parsed.mk none JSVal.undef (JSVal.bool false) none (some [])

/-- First response of the C9 failing input: HTTP 403, valid JSON with
`error:"Invalid API key"`. -/
def bugResp1 : HttpResp :=
  HttpResp.mk false 403 []
    (some (Parsed.mk (some (lit ("Invalid API key"))) JSVal.undef
      JSVal.undef none none))

/-- Retry response of the C9 failing input: HTTP 200 OK, valid JSON,
no error field, one match. -/
def bugResp2 : HttpResp :=
  HttpResp.mk true 200 []
    (some (Parsed.mk none (JSVal.str (lit ("1"))) JSVal.undef none
      (some [sampleMatchA])))

/-- Environment of the C9 failing input: a stored key, a fresh key
typed at the re-prompt, and the two responses above. -/
def bugEnv : Env :=
  Env.mk (lit ("key1")) [lit ("key2")] [bugResp1, bugResp2]

theorem mem_replaceChars {p : Char → Bool} {r c : Char} {s : Str}
    (h : c ∈ replaceChars p r s) : c = r ∨ (c ∈ s ∧ p c = false) := by
  rcases List.mem_map.mp h with ⟨d, hd, he⟩
  by_cases hp : p d = true
  · left
    rw [← he, if_pos hp]
  · right
    have : c = d := by rw [← he, if_neg hp]
    subst this
    exact ⟨hd, by revert hp; cases p c <;> simp⟩

theorem mem_deleteChars {p : Char → Bool} {c : Char} {s : Str}
    (h : c ∈ deleteChars p s) : c ∈ s ∧ p c = false := by
  have hm := List.mem_filter.mp h
  refine ⟨hm.1, ?_⟩
  have h2 := hm.2
  revert h2
  cases p c <;> simp

theorem mem_mapChars {p : Char → Bool} {f : Char → Char} {c : Char} {s : Str}
    (h : c ∈ mapChars p f s) :
    (∃ d, d ∈ s ∧ p d = true ∧ c = f d) ∨ (c ∈ s ∧ p c = false) := by
  rcases List.mem_map.mp h with ⟨d, hd, he⟩
  by_cases hp : p d = true
  · exact Or.inl ⟨d, hd, hp, by rw [← he, if_pos hp]⟩
  · have : c = d := by rw [← he, if_neg hp]
    subst this
    exact Or.inr ⟨hd, by revert hp; cases p c <;> simp⟩

theorem replaceChars_id {p : Char → Bool} {r : Char} {s : Str}
    (h : ∀ c ∈ s, p c = false) : replaceChars p r s = s := by
  induction s with
  | nil => rfl
  | cons a t ih =>
    have ha : p a = false := h a (by simp)
    have ht := ih (fun c hc => h c (by simp [hc]))
    simp only [replaceChars] at ht ⊢
    simp [ha, ht]

theorem deleteChars_id {p : Char → Bool} {s : Str}
    (h : ∀ c ∈ s, p c = false) : deleteChars p s = s := by
  apply List.filter_eq_self.mpr
  intro a ha
  simp [h a ha]

theorem mapChars_id {p : Char → Bool} {f : Char → Char} {s : Str}
    (h : ∀ c ∈ s, p c = false) : mapChars p f s = s := by
  induction s with
  | nil => rfl
  | cons a t ih =>
    have ha : p a = false := h a (by simp)
    have ht := ih (fun c hc => h c (by simp [hc]))
    simp only [mapChars] at ht ⊢
    simp [ha, ht]

theorem mem_collapseWs {c : Char} : ∀ {l : Str},
    c ∈ collapseWs l → c = ' ' ∨ (c ∈ l ∧ isJsWs c = false) := by
  intro l
  induction l using collapseWs.induct with
  | case1 => simp [collapseWs]
  | case2 d hd =>
    simp only [collapseWs, if_pos hd, List.mem_singleton]
    intro he
    exact Or.inl he
  | case3 d hd =>
    simp only [collapseWs, if_neg hd, List.mem_singleton]
    intro he
    subst he
    exact Or.inr ⟨by simp, by revert hd; cases isJsWs c <;> simp⟩
  | case4 a b t hab ih =>
    simp only [collapseWs, if_pos hab]
    intro h
    rcases ih h with h1 | ⟨h2, h3⟩
    · exact Or.inl h1
    · exact Or.inr ⟨List.mem_cons_of_mem a h2, h3⟩
  | case5 a b t hab ih =>
    simp only [collapseWs, if_neg hab, List.mem_cons]
    intro h
    rcases h with he | h
    · by_cases ha : isJsWs a = true
      · rw [if_pos ha] at he
        exact Or.inl he
      · rw [if_neg ha] at he
        subst he
        exact Or.inr ⟨by simp, by revert ha; cases isJsWs c <;> simp⟩
    · rcases ih h with h1 | ⟨h2, h3⟩
      · exact Or.inl h1
      · exact Or.inr ⟨Or.inr (List.mem_cons.mp h2), h3⟩

theorem bool_eq_false {b : Bool} (h : ¬ b = true) : b = false := by
  cases b
  · rfl
  · exact absurd rfl h

theorem singleSpaced_tail {a : Char} {l : Str}
    (h : singleSpaced (a :: l) = true) : singleSpaced l = true := by
  cases l with
  | nil => rfl
  | cons b t =>
    simp only [singleSpaced, Bool.and_eq_true] at h
    exact h.2

theorem singleSpaced_pair {a b : Char} {l : Str}
    (h : singleSpaced (a :: b :: l) = true) : (isJsWs a && isJsWs b) = false := by
  simp only [singleSpaced, Bool.and_eq_true] at h
  have := h.1
  revert this
  cases isJsWs a && isJsWs b <;> simp

theorem singleSpaced_cons_of {a : Char} {l : Str}
    (h : ∀ b, l.head? = some b → (isJsWs a && isJsWs b) = false)
    (hs : singleSpaced l = true) : singleSpaced (a :: l) = true := by
  cases l with
  | nil => rfl
  | cons b t =>
    have hb := h b rfl
    simp only [singleSpaced, Bool.and_eq_true]
    exact ⟨by simp [hb], hs⟩

theorem collapseWs_head {d : Char} {t : Str} (h : isJsWs d = false) :
    (collapseWs (d :: t)).head? = some d := by
  cases t with
  | nil => simp [collapseWs, h]
  | cons e t2 => simp [collapseWs, h]

theorem collapseWs_singleSpaced : ∀ l : Str,
    singleSpaced (collapseWs l) = true := by
  intro l
  induction l using collapseWs.induct with
  | case1 => rfl
  | case2 d hd => simp [collapseWs, hd, singleSpaced]
  | case3 d hd => simp [collapseWs, hd, singleSpaced]
  | case4 a b t hab ih => simpa [collapseWs, hab] using ih
  | case5 a b t hab ih =>
    simp only [collapseWs, if_neg hab]
    by_cases hb : isJsWs b = true
    · have ha : isJsWs a = false := by
        revert hab
        cases h1 : isJsWs a <;> simp [hb]
      rw [if_neg (by simp [ha])]
      refine singleSpaced_cons_of ?_ ih
      intro x _
      simp [ha]
    · refine singleSpaced_cons_of ?_ ih
      intro x hx
      rw [collapseWs_head (bool_eq_false hb)] at hx
      have hxb : b = x := Option.some.inj hx
      subst hxb
      simp [bool_eq_false hb]

theorem collapseWs_id : ∀ l : Str, singleSpaced l = true →
    (∀ c ∈ l, isJsWs c = true → c = ' ') → collapseWs l = l := by
  intro l
  induction l using collapseWs.induct with
  | case1 => simp [collapseWs]
  | case2 d hd =>
    intro _ hws
    have : d = ' ' := hws d (by simp) hd
    simp [collapseWs, hd, this]
  | case3 d hd =>
    intro _ _
    simp [collapseWs, hd]
  | case4 a b t hab ih =>
    intro hs _
    exfalso
    have := singleSpaced_pair hs
    simp [this] at hab
  | case5 a b t hab ih =>
    intro hs hws
    have ht := ih (singleSpaced_tail hs)
      (fun c hc hw => hws c (List.mem_cons_of_mem a hc) hw)
    simp only [collapseWs, if_neg hab, ht]
    by_cases ha : isJsWs a = true
    · rw [if_pos ha, hws a (by simp) ha]
    · rw [if_neg ha]

theorem mem_trimLeft {c : Char} : ∀ {l : Str}, c ∈ trimLeft l → c ∈ l := by
  intro l
  induction l with
  | nil => simp [trimLeft]
  | cons a t ih =>
    by_cases ha : isJsWs a = true
    · simp only [trimLeft, if_pos ha]
      intro h
      exact List.mem_cons_of_mem a (ih h)
    · simp [trimLeft, if_neg ha]

theorem trimLeft_head_not_ws {c : Char} : ∀ {l : Str},
    (trimLeft l).head? = some c → isJsWs c = false := by
  intro l
  induction l with
  | nil => simp [trimLeft]
  | cons a t ih =>
    by_cases ha : isJsWs a = true
    · simp only [trimLeft, if_pos ha]
      exact ih
    · simp only [trimLeft, if_neg ha, List.head?_cons]
      intro h
      have hac : a = c := Option.some.inj h
      subst hac
      exact bool_eq_false ha

theorem singleSpaced_trimLeft : ∀ {l : Str}, singleSpaced l = true →
    singleSpaced (trimLeft l) = true := by
  intro l
  induction l with
  | nil => simp [trimLeft]
  | cons a t ih =>
    intro hs
    by_cases ha : isJsWs a = true
    · simp only [trimLeft, if_pos ha]
      exact ih (singleSpaced_tail hs)
    · simpa [trimLeft, if_neg ha] using hs

theorem trimLeft_id {l : Str}
    (h : ∀ c, l.head? = some c → isJsWs c = false) : trimLeft l = l := by
  cases l with
  | nil => rfl
  | cons a t =>
    have := h a rfl
    simp [trimLeft, this]

theorem trimRight_cons_nil {a : Char} {t : Str} (h : trimRight t = []) :
    trimRight (a :: t) = if isJsWs a then [] else [a] := by
  simp [trimRight, h]

theorem trimRight_cons_ne {a b : Char} {t r : Str} (h : trimRight t = b :: r) :
    trimRight (a :: t) = a :: b :: r := by
  simp [trimRight, h]

theorem mem_trimRight {c : Char} : ∀ {l : Str}, c ∈ trimRight l → c ∈ l := by
  intro l
  induction l with
  | nil => simp [trimRight]
  | cons a t ih =>
    cases htr : trimRight t with
    | nil =>
      rw [trimRight_cons_nil htr]
      by_cases ha : isJsWs a = true
      · simp [ha]
      · simp only [if_neg ha, List.mem_singleton]
        intro he
        simp [he]
    | cons b r =>
      rw [trimRight_cons_ne htr]
      intro h
      rcases List.mem_cons.mp h with he | hm
      · simp [he]
      · refine List.mem_cons_of_mem a (ih ?_)
        rw [htr]
        exact hm

theorem trimRight_head_eq {l : Str} (h : trimRight l ≠ []) :
    (trimRight l).head? = l.head? := by
  cases l with
  | nil => simp [trimRight]
  | cons a t =>
    cases htr : trimRight t with
    | nil =>
      rw [trimRight_cons_nil htr]
      rw [trimRight_cons_nil htr] at h
      by_cases ha : isJsWs a = true
      · rw [if_pos ha] at h
        exact absurd rfl h
      · rw [if_neg ha]
        rfl
    | cons b r =>
      rw [trimRight_cons_ne htr]
      rfl

theorem singleSpaced_trimRight : ∀ {l : Str}, singleSpaced l = true →
    singleSpaced (trimRight l) = true := by
  intro l
  induction l with
  | nil => simp [trimRight]
  | cons a t ih =>
    intro hs
    cases htr : trimRight t with
    | nil =>
      rw [trimRight_cons_nil htr]
      by_cases ha : isJsWs a = true
      · simp [ha, singleSpaced]
      · simp [ha, singleSpaced]
    | cons b r =>
      rw [trimRight_cons_ne htr]
      have hst : singleSpaced (b :: r) = true := by
        have := ih (singleSpaced_tail hs)
        rw [htr] at this
        exact this
      have hne : trimRight t ≠ [] := by simp [htr]
      have hh : (trimRight t).head? = t.head? := trimRight_head_eq hne
      rw [htr] at hh
      cases t with
      | nil => simp at hh
      | cons x t2 =>
        have hbx : b = x := Option.some.inj hh
        subst hbx
        have hpair := singleSpaced_pair hs
        simp only [singleSpaced, Bool.and_eq_true]
        exact ⟨by simp [hpair], hst⟩

theorem trimRight_getLast_not_ws {c : Char} : ∀ {l : Str},
    (trimRight l).getLast? = some c → isJsWs c = false := by
  intro l
  induction l with
  | nil => simp [trimRight]
  | cons a t ih =>
    cases htr : trimRight t with
    | nil =>
      rw [trimRight_cons_nil htr]
      by_cases ha : isJsWs a = true
      · simp [ha]
      · simp only [if_neg ha, List.getLast?_singleton]
        intro h
        have hac : a = c := Option.some.inj h
        subst hac
        exact bool_eq_false ha
    | cons b r =>
      rw [trimRight_cons_ne htr, List.getLast?_cons_cons]
      intro h
      apply ih
      rw [htr]
      exact h

theorem trimRight_id : ∀ {l : Str},
    (∀ c, l.getLast? = some c → isJsWs c = false) → trimRight l = l := by
  intro l
  induction l with
  | nil => intro _; rfl
  | cons a t ih =>
    intro h
    cases t with
    | nil =>
      have ha := h a (by simp)
      rw [trimRight_cons_nil (by simp [trimRight]), ha]
      simp
    | cons b t2 =>
      have hlast : ∀ c, (b :: t2).getLast? = some c → isJsWs c = false := by
        intro c hc
        apply h
        rw [List.getLast?_cons_cons]
        exact hc
      exact trimRight_cons_ne (ih hlast)

theorem mem_jsTrim {c : Char} {l : Str} (h : c ∈ jsTrim l) : c ∈ l :=
  mem_trimLeft (mem_trimRight h)

theorem singleSpaced_jsTrim {l : Str} (h : singleSpaced l = true) :
    singleSpaced (jsTrim l) = true :=
  singleSpaced_trimRight (singleSpaced_trimLeft h)

theorem jsTrim_head_not_ws {c : Char} {l : Str}
    (h : (jsTrim l).head? = some c) : isJsWs c = false := by
  simp only [jsTrim] at h
  have hne : trimRight (trimLeft l) ≠ [] := by
    intro he
    rw [he] at h
    exact Option.noConfusion h
  rw [trimRight_head_eq hne] at h
  exact trimLeft_head_not_ws h

theorem jsTrim_getLast_not_ws {c : Char} {l : Str}
    (h : (jsTrim l).getLast? = some c) : isJsWs c = false :=
  trimRight_getLast_not_ws h

theorem jsTrim_id {l : Str}
    (h1 : ∀ c, l.head? = some c → isJsWs c = false)
    (h2 : ∀ c, l.getLast? = some c → isJsWs c = false) : jsTrim l = l := by
  simp only [jsTrim]
  rw [trimLeft_id h1, trimRight_id h2]

theorem latin_digit_image_clean {d : Char} (h : isLatinDigit d = true) :
    cleanNonWs (latinToPersianDigit d) = true := by
  simp only [isLatinDigit, Bool.and_eq_true, decide_eq_true_eq] at h
  obtain ⟨h1, h2⟩ := h
  show cleanNonWs (Char.ofNat (0x06F0 + (charNat d - 0x30))) = true
  generalize hg : charNat d = n at h1 h2
  interval_cases n <;> decide

theorem arabic_digit_image_clean {d : Char} (h : isArabicIndicDigit d = true) :
    cleanNonWs (arabicToPersianDigit d) = true := by
  simp only [isArabicIndicDigit, Bool.and_eq_true, decide_eq_true_eq] at h
  obtain ⟨h1, h2⟩ := h
  show cleanNonWs (Char.ofNat (0x06F0 + (charNat d - 0x0660))) = true
  generalize hg : charNat d = n at h1 h2
  interval_cases n <;> decide

theorem normalizePersian_chars {s : Str} :
    ∀ c ∈ normalizePersian s, cleanNonWs c = true ∧ (isJsWs c = true → c = ' ') := by
  intro c hc
  by_cases hs : s = []
  · subst hs
    simp [normalizePersian] at hc
  · simp only [normalizePersian, if_neg hs] at hc
    rcases mem_collapseWs (mem_jsTrim hc) with he | ⟨hmem, hnws⟩
    · subst he
      exact ⟨by decide, fun _ => rfl⟩
    · refine ⟨?_, fun hw => absurd hw (by simp [hnws])⟩
      rcases mem_mapChars hmem with ⟨d, _, hp, he⟩ | ⟨hmem, hlat⟩
      · rw [he]
        exact latin_digit_image_clean hp
      rcases mem_mapChars hmem with ⟨d, _, hp, he⟩ | ⟨hmem, harab⟩
      · rw [he]
        exact arabic_digit_image_clean hp
      obtain ⟨hmem, hdiac⟩ := mem_deleteChars hmem
      obtain ⟨hmem, hcom⟩ := mem_deleteChars hmem
      obtain ⟨hmem, harcom⟩ := mem_deleteChars hmem
      rcases mem_replaceChars hmem with he | ⟨hmem, hgroup⟩
      · rw [he]
        decide
      rcases mem_replaceChars hmem with he | ⟨hmem, hwaw⟩
      · rw [he]
        decide
      rcases mem_replaceChars hmem with he | ⟨hmem, hteh⟩
      · rw [he]
        decide
      rcases mem_replaceChars hmem with he | ⟨hmem, hkaf⟩
      · rw [he]
        decide
      rcases mem_replaceChars hmem with he | ⟨hmem, hya⟩
      · rw [he]
        decide
      rcases mem_replaceChars hmem with he | ⟨hmem, hzw⟩
      · rw [he]
        decide
      rcases mem_replaceChars hmem with he | ⟨_, hsym⟩
      · rw [he]
        decide
      simp only [cleanNonWs, Bool.and_eq_true, Bool.not_eq_true']
      exact ⟨⟨⟨⟨⟨⟨⟨⟨⟨⟨⟨hsym, hzw⟩, hya⟩, hkaf⟩, hteh⟩, hwaw⟩, hgroup⟩,
        harcom⟩, hcom⟩, hdiac⟩, harab⟩, hlat⟩

theorem normalizePersian_invariant (s : Str) :
    (∀ c ∈ normalizePersian s,
      cleanNonWs c = true ∧ (isJsWs c = true → c = ' ')) ∧
    singleSpaced (normalizePersian s) = true ∧
    (∀ c, (normalizePersian s).head? = some c → isJsWs c = false) ∧
    (∀ c, (normalizePersian s).getLast? = some c → isJsWs c = false) := by
  refine ⟨normalizePersian_chars, ?_, ?_, ?_⟩
  · by_cases hs : s = []
    · subst hs
      simp [normalizePersian]
      rfl
    · simp only [normalizePersian, if_neg hs]
      exact singleSpaced_jsTrim (collapseWs_singleSpaced _)
  · by_cases hs : s = []
    · subst hs
      simp [normalizePersian]
    · simp only [normalizePersian, if_neg hs]
      exact fun c h => jsTrim_head_not_ws h
  · by_cases hs : s = []
    · subst hs
      simp [normalizePersian]
    · simp only [normalizePersian, if_neg hs]
      exact fun c h => jsTrim_getLast_not_ws h

theorem cleanNonWs_split {c : Char} (h : cleanNonWs c = true) :
    isUnwantedSymbol c = false ∧ isZeroWidth c = false ∧
    (c == 'ي') = false ∧ (c == 'ك') = false ∧ (c == 'ة') = false ∧
    (c == 'ؤ') = false ∧ (c == 'إ' || c == 'أ' || c == 'ٱ') = false ∧
    (c == '،') = false ∧ (c == ',') = false ∧
    isArabicDiacritic c = false ∧ isArabicIndicDigit c = false ∧
    isLatinDigit c = false := by
  simp only [cleanNonWs, Bool.and_eq_true, Bool.not_eq_true'] at h
  obtain ⟨⟨⟨⟨⟨⟨⟨⟨⟨⟨⟨h1, h2⟩, h3⟩, h4⟩, h5⟩, h6⟩, h7⟩, h8⟩, h9⟩, h10⟩,
    h11⟩, h12⟩ := h
  exact ⟨h1, h2, h3, h4, h5, h6, h7, h8, h9, h10, h11, h12⟩

theorem normalizePersian_idem_aux (s : Str) :
    normalizePersian (normalizePersian s) = normalizePersian s := by
  obtain ⟨hchars, hss, hhd, hls⟩ := normalizePersian_invariant s
  generalize hgen : normalizePersian s = t at hchars hss hhd hls ⊢
  by_cases h0 : t = []
  · subst h0
    rfl
  · have hcl : ∀ c ∈ t, cleanNonWs c = true := fun c hc => (hchars c hc).1
    have hws2 : ∀ c ∈ t, isJsWs c = true → c = ' ' :=
      fun c hc => (hchars c hc).2
    simp only [normalizePersian, if_neg h0]
    rw [replaceChars_id (fun c hc => (cleanNonWs_split (hcl c hc)).1)]
    rw [replaceChars_id (fun c hc => (cleanNonWs_split (hcl c hc)).2.1)]
    rw [replaceChars_id (fun c hc => (cleanNonWs_split (hcl c hc)).2.2.1)]
    rw [replaceChars_id (fun c hc => (cleanNonWs_split (hcl c hc)).2.2.2.1)]
    rw [replaceChars_id (fun c hc => (cleanNonWs_split (hcl c hc)).2.2.2.2.1)]
    rw [replaceChars_id
      (fun c hc => (cleanNonWs_split (hcl c hc)).2.2.2.2.2.1)]
    rw [replaceChars_id
      (fun c hc => (cleanNonWs_split (hcl c hc)).2.2.2.2.2.2.1)]
    rw [deleteChars_id
      (fun c hc => (cleanNonWs_split (hcl c hc)).2.2.2.2.2.2.2.1)]
    rw [deleteChars_id
      (fun c hc => (cleanNonWs_split (hcl c hc)).2.2.2.2.2.2.2.2.1)]
    rw [deleteChars_id
      (fun c hc => (cleanNonWs_split (hcl c hc)).2.2.2.2.2.2.2.2.2.1)]
    rw [mapChars_id
      (fun c hc => (cleanNonWs_split (hcl c hc)).2.2.2.2.2.2.2.2.2.2.1)]
    rw [mapChars_id
      (fun c hc => (cleanNonWs_split (hcl c hc)).2.2.2.2.2.2.2.2.2.2.2)]
    rw [collapseWs_id t hss hws2]
    exact jsTrim_id hhd hls

theorem escapeHtml_append (a b : Str) :
    escapeHtml (some (a ++ b)) = escapeHtml (some a) ++ escapeHtml (some b) := by
  simp [escapeHtml, expandChar, List.flatMap_append]

theorem escapeHtml_single (c : Char) : escapeHtml (some [c]) = htmlEntity c := by
  by_cases h1 : c = '&'
  · subst h1
    decide
  by_cases h2 : c = '<'
  · subst h2
    decide
  by_cases h3 : c = '>'
  · subst h3
    decide
  by_cases h4 : c = '"'
  · subst h4
    decide
  by_cases h5 : c = aposChar
  · subst h5
    decide
  simp [escapeHtml, expandChar, htmlEntity, h1, h2, h3, h4, h5]

theorem escapeHtml_flatMap (s : Str) :
    escapeHtml (some s) = s.flatMap htmlEntity := by
  induction s with
  | nil => rfl
  | cons a t ih =>
    have h : a :: t = [a] ++ t := rfl
    rw [h, escapeHtml_append, ih, escapeHtml_single]
    simp

theorem infix_extend_right {x l y : Str} (h : x <:+: l) : x <:+: l ++ y := by
  rcases h with ⟨s, t, he⟩
  exact ⟨s, t ++ y, by rw [← he]; simp⟩

theorem infix_extend_left {x l y : Str} (h : x <:+: l) : x <:+: y ++ l := by
  rcases h with ⟨s, t, he⟩
  exact ⟨y ++ s, t, by rw [← he]; simp⟩

theorem infix_middle (a x b : Str) : x <:+: a ++ x ++ b := ⟨a, b, rfl⟩

theorem mem_enumFrom_get {α : Type} :
    ∀ (l : List α) (n i : Nat) (h : i < l.length),
      (n + i, l.get ⟨i, h⟩) ∈ List.enumFrom n l := by
  intro l
  induction l with
  | nil =>
    intro n i h
    simp at h
  | cons a t ih =>
    intro n i h
    cases i with
    | zero => simp [List.enumFrom]
    | succ j =>
      have hj : j < t.length := by
        simp at h
        omega
      have := ih (n + 1) j hj
      have harith : n + 1 + j = n + (j + 1) := by omega
      rw [harith] at this
      simp only [List.enumFrom, List.mem_cons]
      right
      simpa using this

theorem mem_enum_get {α : Type} (l : List α) (i : Nat) (h : i < l.length) :
    (i, l.get ⟨i, h⟩) ∈ l.enum := by
  have := mem_enumFrom_get l 0 i h
  simpa [List.enum] using this

theorem countFetch_append (a b : List Act) :
    countFetch (a ++ b) = countFetch a + countFetch b := by
  simp [countFetch, List.filter_append]

theorem afterKey_shape (name apiKey : Str) (ps : List Str)
    (rs : List HttpResp) :
    ∃ tail, (afterKey name apiKey ps rs).1 = Act.fetch name apiKey :: tail := by
  simp only [afterKey]
  repeat' split
  all_goals exact ⟨_, rfl⟩

theorem afterKey_fetch_le (name apiKey : Str) (ps : List Str)
    (rs : List HttpResp) :
    countFetch (afterKey name apiKey ps rs).1 ≤ 2 := by
  simp only [afterKey]
  repeat' split
  all_goals simp [countFetch, List.filter]

theorem runTry_fetch_le (name : Str) (env : Env) :
    countFetch (runTry name env).1 ≤ 2 := by
  by_cases hk : env.storedKey = []
  · simp only [runTry, if_pos hk]
    by_cases hp : promptResult env.prompts = []
    · simp [hp, countFetch]
    · simp only [if_neg hp]
      have h := afterKey_fetch_le name (promptResult env.prompts)
        env.prompts.tail env.responses
      simpa [countFetch] using h
  · simp only [runTry, if_neg hk]
    exact afterKey_fetch_le name env.storedKey env.prompts env.responses

theorem run_fetch_le (sel : Str) (env : Env) :
    countFetch (run sel env) ≤ 2 := by
  by_cases h : normalizePersian (jsTrim sel) = []
  · simp [run, h, countFetch]
  · rcases hrt : runTry (normalizePersian (jsTrim sel)) env with ⟨acts, r⟩
    have hle : countFetch acts ≤ 2 := by
      have := runTry_fetch_le (normalizePersian (jsTrim sel)) env
      rw [hrt] at this
      exact this
    cases r with
    | ok u =>
      simpa [run, if_neg h, hrt] using hle
    | error e =>
      simp only [run, if_neg h, hrt]
      rw [countFetch_append]
      simpa [countFetch] using hle

theorem afterKey_invalid_first
    (name key p : Str) (ps : List Str) (r1 r2 : HttpResp)
    (rs : List HttpResp) (q1 : Parsed)
    (hp1 : r1.parsed = some q1) (hinv1 : invalidKeyErr q1 = true) :
    (jsTrim p = [] →
      afterKey name key (p :: ps) (r1 :: r2 :: rs) =
        ([Act.fetch name key, Act.setKey [], Act.alert msgInvalidKey,
          Act.prompt, Act.alert msgKeyRequired], Except.ok ())) ∧
    (jsTrim p ≠ [] → ∃ acts2 r,
      afterKey name key (p :: ps) (r1 :: r2 :: rs) =
        ([Act.fetch name key, Act.setKey [], Act.alert msgInvalidKey,
          Act.prompt, Act.setKey (jsTrim p),
          Act.fetch name (jsTrim p)] ++ acts2, r) ∧
      countFetch acts2 = 0) ∧
    (jsTrim p ≠ [] → ∀ q2, r2.parsed = some q2 → invalidKeyErr q2 = true →
      afterKey name key (p :: ps) (r1 :: r2 :: rs) =
        ([Act.fetch name key, Act.setKey [], Act.alert msgInvalidKey,
          Act.prompt, Act.setKey (jsTrim p), Act.fetch name (jsTrim p),
          Act.setKey []],
         Except.error (lit ("Server error: Invalid API key")))) := by
  refine ⟨?_, ?_, ?_⟩
  · intro hp
    simp [afterKey, firstResp, hp1, hinv1, promptResult, firstPrompt, hp]
  · intro hp
    simp only [afterKey, firstResp, secondResp, hp1, hinv1, promptResult,
      firstPrompt, if_pos rfl, if_neg hp, if_true]
    cases hq2 : r2.parsed with
    | none =>
      exact ⟨[], Except.error (msgNotJson r2.status r2.raw), by simp, rfl⟩
    | some q2 =>
      by_cases hi2 : invalidKeyErr q2 = true
      · simp only [hi2, if_true]
        exact ⟨[Act.setKey []],
          Except.error (lit ("Server error: Invalid API key")), by simp, rfl⟩
      · simp only [hi2, if_false]
        by_cases hb1 : (!r2.ok && !errTruthy q2.error) = true
        · simp only [hb1, if_true]
          exact ⟨[], Except.error (msgHttp r2.status r2.raw), by simp, rfl⟩
        · simp only [hb1, if_false]
          by_cases hb2 : errTruthy q2.error = true
          · simp only [hb2, if_true]
            exact ⟨[], Except.error (lit ("Server error: ") ++ q2.error.getD []),
              by simp, rfl⟩
          · simp only [hb2, if_false]
            by_cases hb3 : (!r1.ok) = true
            · simp only [hb3, if_true]
              exact ⟨[], Except.error (msgHttp r1.status r1.raw), by simp, rfl⟩
            · simp only [hb3, if_false]
              exact ⟨[Act.popup (buildHtml name q2)], Except.ok (),
                by simp, rfl⟩
  · intro hp q2 hq2 hinv2
    simp [afterKey, firstResp, secondResp, hp1, hinv1, promptResult,
      firstPrompt, hp, hq2, hinv2]

/-- C1: when the first lookup response is valid JSON whose error signals
an invalid credential, the orchestrator clears the stored credential,
prompts anew (aborting with a notice when the prompt yields empty),
persists the new credential and retries exactly once; if the retry also
signals an invalid credential the credential is cleared again and the
flow ends with a user-visible error; no flow ever issues more than two
lookup requests. -/
theorem invalid_credential_retry_once
    (sel key p : Str) (ps : List Str) (r1 r2 : HttpResp)
    (rs : List HttpResp) (q1 : Parsed)
    (hname : normalizePersian (jsTrim sel) ≠ [])
    (hkey : key ≠ [])
    (hp1 : r1.parsed = some q1) (hinv1 : invalidKeyErr q1 = true) :
    (jsTrim p = [] →
      run sel (Env.mk key (p :: ps) (r1 :: r2 :: rs)) =
        [Act.fetch (normalizePersian (jsTrim sel)) key, Act.setKey [],
         Act.alert msgInvalidKey, Act.prompt, Act.alert msgKeyRequired]) ∧
    (jsTrim p ≠ [] → ∃ rest,
      run sel (Env.mk key (p :: ps) (r1 :: r2 :: rs)) =
        [Act.fetch (normalizePersian (jsTrim sel)) key, Act.setKey [],
         Act.alert msgInvalidKey, Act.prompt, Act.setKey (jsTrim p),
         Act.fetch (normalizePersian (jsTrim sel)) (jsTrim p)] ++ rest ∧
      countFetch rest = 0) ∧
    (jsTrim p ≠ [] → ∀ q2, r2.parsed = some q2 → invalidKeyErr q2 = true →
      run sel (Env.mk key (p :: ps) (r1 :: r2 :: rs)) =
        [Act.fetch (normalizePersian (jsTrim sel)) key, Act.setKey [],
         Act.alert msgInvalidKey, Act.prompt, Act.setKey (jsTrim p),
         Act.fetch (normalizePersian (jsTrim sel)) (jsTrim p), Act.setKey [],
         Act.alert (lit ("Error checking name:\n") ++
           lit ("Server error: Invalid API key"))]) ∧
    (∀ sel2 env2, countFetch (run sel2 env2) ≤ 2) := by
  obtain ⟨ha, hb, hc⟩ := afterKey_invalid_first (normalizePersian (jsTrim sel))
    key p ps r1 r2 rs q1 hp1 hinv1
  have hrun : runTry (normalizePersian (jsTrim sel))
      (Env.mk key (p :: ps) (r1 :: r2 :: rs)) =
      afterKey (normalizePersian (jsTrim sel)) key (p :: ps)
        (r1 :: r2 :: rs) := by
    simp [runTry, hkey]
  refine ⟨?_, ?_, ?_, run_fetch_le⟩
  · intro hp
    have he := ha hp
    simp only [run, if_neg hname, hrun, he]
  · intro hp
    obtain ⟨acts2, r, heq, hcf⟩ := hb hp
    cases r with
    | ok u =>
      exact ⟨acts2, by simp only [run, if_neg hname, hrun, heq], hcf⟩
    | error e =>
      refine ⟨acts2 ++ [Act.alert (lit ("Error checking name:\n") ++ e)],
        ?_, ?_⟩
      · simp only [run, if_neg hname, hrun, heq]
        simp
      · rw [countFetch_append, hcf]
        simp [countFetch]
  · intro hp q2 hq2 hinv2
    have he := hc hp q2 hq2 hinv2
    simp only [run, if_neg hname, hrun, he]
    rfl

/-- C1 witness: a concrete flow with a non-empty selection, stored key,
a fresh key at the prompt, and two invalid-credential responses. -/
theorem invalid_credential_retry_once_witness :
    run (lit ("ab"))
      (Env.mk (lit ("k")) [lit ("k2")] [bugResp1, bugResp1]) =
      [Act.fetch (normalizePersian (jsTrim (lit ("ab")))) (lit ("k")),
       Act.setKey [], Act.alert msgInvalidKey, Act.prompt,
       Act.setKey (jsTrim (lit ("k2"))),
       Act.fetch (normalizePersian (jsTrim (lit ("ab"))))
         (jsTrim (lit ("k2"))), Act.setKey [],
       Act.alert (lit ("Error checking name:\n") ++
         lit ("Server error: Invalid API key"))] :=
  ((invalid_credential_retry_once (lit ("ab")) (lit ("k")) (lit ("k2")) []
      bugResp1 bugResp1 [] (bugResp1.parsed.getD (Parsed.mk none
        JSVal.undef JSVal.undef none none))
      (by decide) (by decide) (by rfl) (by decide)).2.2.1
    (by decide) (bugResp1.parsed.getD (Parsed.mk none JSVal.undef
        JSVal.undef none none)) (by rfl) (by decide))

/-- C8: with an empty stored credential the orchestrator prompts exactly
once before the first lookup; an empty prompt result aborts with a
notice, without any lookup request and without persisting anything; a
non-empty entry is persisted immediately before the lookup. -/
theorem empty_credential_prompt_once
    (sel p : Str) (ps : List Str) (rs : List HttpResp)
    (hname : normalizePersian (jsTrim sel) ≠ []) :
    (jsTrim p = [] →
      run sel (Env.mk [] (p :: ps) rs) =
        [Act.prompt, Act.alert msgKeyRequired]) ∧
    (jsTrim p ≠ [] → ∃ rest,
      run sel (Env.mk [] (p :: ps) rs) =
        Act.prompt :: Act.setKey (jsTrim p) ::
          Act.fetch (normalizePersian (jsTrim sel)) (jsTrim p) :: rest) := by
  refine ⟨?_, ?_⟩
  · intro hp
    simp [run, if_neg hname, runTry, promptResult, firstPrompt, hp]
  · intro hp
    obtain ⟨tail, htail⟩ := afterKey_shape (normalizePersian (jsTrim sel))
      (jsTrim p) ps rs
    rcases hr : afterKey (normalizePersian (jsTrim sel)) (jsTrim p) ps rs
      with ⟨acts, r⟩
    have hacts : acts = Act.fetch (normalizePersian (jsTrim sel))
        (jsTrim p) :: tail := by
      rw [hr] at htail
      exact htail
    have hrt : runTry (normalizePersian (jsTrim sel)) (Env.mk [] (p :: ps) rs) =
        (Act.prompt :: Act.setKey (jsTrim p) :: acts, r) := by
      simp [runTry, promptResult, firstPrompt, hp, hr]
    cases r with
    | ok u =>
      refine ⟨tail, ?_⟩
      simp only [run, if_neg hname, hrt, hacts]
    | error e =>
      refine ⟨tail ++ [Act.alert (lit ("Error checking name:\n") ++ e)], ?_⟩
      simp only [run, if_neg hname, hrt, hacts]
      simp

/-- C8 witness: concrete flows for both the cancelled prompt and the
persisted fresh credential. -/
theorem empty_credential_prompt_once_witness :
    run (lit ("ab")) (Env.mk [] [[]] [bugResp2]) =
      [Act.prompt, Act.alert msgKeyRequired] ∧
    (∃ rest, run (lit ("ab")) (Env.mk [] [lit ("k1")] [bugResp2]) =
      Act.prompt :: Act.setKey (jsTrim (lit ("k1"))) ::
        Act.fetch (normalizePersian (jsTrim (lit ("ab"))))
          (jsTrim (lit ("k1"))) :: rest) :=
  ⟨(empty_credential_prompt_once (lit ("ab")) [] [] [bugResp2]
      (by decide)).1 (by decide),
   (empty_credential_prompt_once (lit ("ab")) (lit ("k1")) [] [bugResp2]
      (by decide)).2 (by decide)⟩

/-- C9 (failing input): first response HTTP 403 with a JSON
invalid-credential error, retry response HTTP 200 with a clean JSON
body; the code surfaces a transport error carrying the FIRST response
status instead of rendering the successful retry response, because line
201 re-checks `res.ok` of the first response after the retry. -/
theorem stale_transport_check_on_retry :
    run (lit ("ab")) bugEnv =
      [Act.fetch (lit ("ab")) (lit ("key1")), Act.setKey [],
       Act.alert msgInvalidKey, Act.prompt, Act.setKey (lit ("key2")),
       Act.fetch (lit ("ab")) (lit ("key2")),
       Act.alert (lit ("Error checking name:\nHTTP 403\n"))] ∧
    countPopup (run (lit ("ab")) bugEnv) = 0 := by
  constructor
  · decide
  · decide

/-- C2: the normalizer is a total function of the input string,
idempotent, and maps empty and nullish input to the empty string. -/
theorem normalize_total_idempotent :
    (∀ s : Str, normalizePersian (normalizePersian s) = normalizePersian s) ∧
    normalizePersianJS none = [] ∧ normalizePersian [] = [] :=
  ⟨normalizePersian_idem_aux, rfl, by decide⟩

/-- C3 counterexample: the normalizer preserves Latin letters, so its
output is not restricted to Persian letters, Persian digits and
spaces — input "a" yields "a". -/
theorem normalize_output_keeps_latin :
    normalizePersian (lit ("a")) = lit ("a") ∧
    specPersianLetter 'a' = false ∧ isPersianDigit 'a' = false ∧
    ('a' == ' ') = false := by
  decide

/-- C3 (amended): every character of the normalizer output survives all
rewriting stages — no `#_()` symbols, no zero-width characters, no
Arabic variant letters, no commas, no diacritics, no Arabic-Indic or
Latin digits — any whitespace in the output is the plain space, and the
output is single-spaced with no leading or trailing whitespace. -/
theorem normalize_output_invariant (s : Str) :
    (∀ c ∈ normalizePersian s,
      cleanNonWs c = true ∧ (isJsWs c = true → c = ' ')) ∧
    singleSpaced (normalizePersian s) = true ∧
    (∀ c, (normalizePersian s).head? = some c → isJsWs c = false) ∧
    (∀ c, (normalizePersian s).getLast? = some c → isJsWs c = false) :=
  normalizePersian_invariant s

/-- C3 witness: the invariant applied to a concrete output character. -/
theorem normalize_output_invariant_witness :
    cleanNonWs 'a' = true ∧ (isJsWs 'a' = true → 'a' = ' ') :=
  (normalize_output_invariant (lit (" a  b "))).1 'a' (by decide)

/-- C4: every Arabic-Indic and Latin digit is mapped to the Persian
digit with the same value, the Arabic variant letters map to their
Persian equivalents, and both commas are deleted outright (no space
left behind); in particular the two examples of the spec hold. -/
theorem normalize_digit_letter_maps :
    (∀ k : Fin 10,
      normalizePersian [Char.ofNat (0x0660 + k.val)] =
        [Char.ofNat (0x06F0 + k.val)] ∧
      normalizePersian [Char.ofNat (0x30 + k.val)] =
        [Char.ofNat (0x06F0 + k.val)]) ∧
    normalizePersian (lit ("ي")) = lit ("ی") ∧
    normalizePersian (lit ("ك")) = lit ("ک") ∧
    normalizePersian (lit ("ة")) = lit ("ه") ∧
    normalizePersian (lit ("ؤ")) = lit ("و") ∧
    normalizePersian (lit ("إ")) = lit ("ا") ∧
    normalizePersian (lit ("أ")) = lit ("ا") ∧
    normalizePersian (lit ("ٱ")) = lit ("ا") ∧
    normalizePersian (lit ("ا،ب")) = lit ("اب") ∧
    normalizePersian (lit ("ا,ب")) = lit ("اب") ∧
    normalizePersian (lit ("١٢٣")) = lit ("۱۲۳") ∧
    strIncludes (normalizePersian (lit ("علي"))) (lit ("ی")) = true ∧
    strIncludes (normalizePersian (lit ("علي"))) (lit ("ي")) = false := by
  decide

/-- C5: the HTML escaper maps nullish input to the empty string and is
exactly the single-pass entity substitution — the sequential replaces,
ampersand first, never double-escape the entities introduced by later
replacements; the spec example evaluates as stated. -/
theorem escapeHtml_contract :
    escapeHtml none = [] ∧
    (∀ s : Str, escapeHtml (some s) = s.flatMap htmlEntity) ∧
    escapeHtml (some (lit ("<b>&") ++ [aposChar, '"'])) =
      lit ("&lt;b&gt;&amp;&#039;&quot;") :=
  ⟨rfl, escapeHtml_flatMap, by decide⟩

/-- C10: the hit decision reads `exist`, falls back to `exists` when
`exist` is nullish, and is true exactly for the string "1", the number
1, the boolean true, or any value stringifying (lowercased) to
"true" — so `exists:true` and `exist:"1"` are handled identically. -/
theorem exist_field_truthiness :
    (∀ p : Parsed,
      existsOf p = (existVal p == JSVal.str (lit ("1")) ||
        existVal p == JSVal.num 1 || existVal p == JSVal.bool true ||
        lowerStr (jsToString (existVal p)) == lit ("true"))) ∧
    (∀ (e : Option Str) (v : JSVal) (c : Option Int)
        (m : Option (List MatchRec)),
      existVal (Parsed.mk e JSVal.undef v c m) = v ∧
      existVal (Parsed.mk e JSVal.null v c m) = v) ∧
    (∀ (e : Option Str) (c : Option Int) (m : Option (List MatchRec)),
      existsOf (Parsed.mk e (JSVal.str (lit ("1"))) JSVal.undef c m) = true ∧
      existsOf (Parsed.mk e JSVal.undef (JSVal.bool true) c m) = true ∧
      existsOf (Parsed.mk e (JSVal.str (lit ("TRUE"))) JSVal.undef c m) = true ∧
      existsOf (Parsed.mk e (JSVal.num 1) JSVal.undef c m) = true ∧
      existsOf (Parsed.mk e (JSVal.num 0) JSVal.undef c m) = false ∧
      existsOf (Parsed.mk e (JSVal.str (lit ("0"))) JSVal.undef c m) = false) :=
  ⟨fun _ => rfl, fun _ _ _ _ => ⟨rfl, rfl⟩,
   fun _ _ _ => ⟨rfl, rfl, rfl, rfl, rfl, rfl⟩⟩

theorem infix_left_append (y x : Str) : x <:+: y ++ x := ⟨y, [], by simp⟩

theorem notFound_infix_banner (name : Str) :
    lit ("❌ NOT FOUND") <:+: notFoundHtml name := by
  have hA : lit ("\n        <div style=\"font-size:16px; font-weight:700;\">❌ NOT FOUND</div>\n        <div style=\"margin-top:6px;\">Name: <b>") =
      lit ("\n        <div style=\"font-size:16px; font-weight:700;\">") ++
      lit ("❌ NOT FOUND") ++
      lit ("</div>\n        <div style=\"margin-top:6px;\">Name: <b>") := by
    decide
  simp only [notFoundHtml]
  rw [hA]
  exact infix_extend_right (infix_extend_right (infix_extend_right
    (infix_extend_right (infix_middle _ _ _))))

theorem notFound_infix_name (name : Str) :
    lit ("<b>") ++ escapeHtml (some name) ++ lit ("</b>") <:+:
      notFoundHtml name := by
  have hA : lit ("\n        <div style=\"font-size:16px; font-weight:700;\">❌ NOT FOUND</div>\n        <div style=\"margin-top:6px;\">Name: <b>") =
      lit ("\n        <div style=\"font-size:16px; font-weight:700;\">❌ NOT FOUND</div>\n        <div style=\"margin-top:6px;\">Name: ") ++
      lit ("<b>") := by
    decide
  have hB : lit ("</b></div>\n        <div style=\"margin-top:12px;\">\n          <a ") =
      lit ("</b>") ++
      lit ("</div>\n        <div style=\"margin-top:12px;\">\n          <a ") := by
    decide
  simp only [notFoundHtml]
  rw [hA, hB]
  refine infix_extend_right (infix_extend_right ?_)
  refine ⟨lit ("\n        <div style=\"font-size:16px; font-weight:700;\">❌ NOT FOUND</div>\n        <div style=\"margin-top:6px;\">Name: "),
    lit ("</div>\n        <div style=\"margin-top:12px;\">\n          <a "), ?_⟩
  simp [List.append_assoc]

theorem notFound_infix_href (name : Str) :
    hrefAttr (googleSearchUrl name) <:+: notFoundHtml name := by
  simp only [notFoundHtml]
  exact infix_extend_right (infix_left_append _ _)

theorem lift_notFound {x name : Str} {p : Parsed}
    (hcond : foundCond p = false) (hx : x <:+: notFoundHtml name) :
    x <:+: buildHtml name p := by
  have hb : buildHtml name p =
      headerHtml ++ notFoundHtml name ++ footerHtml := by
    simp [buildHtml, hcond]
  rw [hb]
  exact infix_extend_right (infix_extend_left hx)

/-- C7: when the response is a miss (or the match list is empty) the
popup contains the NOT FOUND banner, the escaped search term in the
name line, and an href attribute holding the HTML-escaped Google search
URL whose query is the URL-encoded name. -/
theorem render_not_found (name : Str) (p : Parsed)
    (h : existsOf p = false ∨ p.matchesF = some []) :
    lit ("❌ NOT FOUND") <:+: buildHtml name p ∧
    lit ("<b>") ++ escapeHtml (some name) ++ lit ("</b>") <:+:
      buildHtml name p ∧
    hrefAttr (googleSearchUrl name) <:+: buildHtml name p := by
  have hcond : foundCond p = false := by
    rcases h with h | h
    · simp [foundCond, h]
    · simp [foundCond, h]
  exact ⟨lift_notFound hcond (notFound_infix_banner name),
    lift_notFound hcond (notFound_infix_name name),
    lift_notFound hcond (notFound_infix_href name)⟩

/-- C7 witness: the miss response rendered for a concrete Persian
name. -/
theorem render_not_found_witness :
    lit ("❌ NOT FOUND") <:+: buildHtml (lit ("علی")) sampleNotFound ∧
    hrefAttr (googleSearchUrl (lit ("علی"))) <:+:
      buildHtml (lit ("علی")) sampleNotFound :=
  ⟨(render_not_found (lit ("علی")) sampleNotFound (Or.inl (by decide))).1,
   (render_not_found (lit ("علی")) sampleNotFound (Or.inl (by decide))).2.2⟩

theorem bannerCore_in_banner (count : Int) (name : Str) :
    bannerCore count <:+: bannerHtml count name := by
  simp only [bannerHtml]
  exact infix_extend_right (infix_extend_right (infix_extend_right
    (infix_left_append _ _)))

theorem blockHead_in_block (index : Nat) (m : MatchRec) :
    blockHead index (escapeHtml m.fullName) <:+: blockFor index m := by
  simp only [blockFor]
  exact infix_extend_right (infix_extend_right (infix_extend_right
    (infix_extend_right (infix_extend_right (infix_extend_right
    (infix_extend_right (infix_extend_right (infix_extend_right
    (infix_extend_right (infix_extend_right (infix_extend_right
    (infix_extend_right (infix_extend_right (infix_extend_right
    (infix_left_append _ _)))))))))))))))

set_option maxHeartbeats 2000000 in
theorem blockFor_in_found (name : Str) (p : Parsed) (ms : List MatchRec)
    (i : Nat) (h : i < ms.length) :
    blockFor i (ms.get ⟨i, h⟩) <:+: foundHtml name p ms := by
  simp only [foundHtml]
  apply infix_extend_left
  apply List.infix_of_mem_flatten
  exact List.mem_map.mpr ⟨(i, ms.get ⟨i, h⟩), mem_enum_get ms i h, rfl⟩

theorem lift_found {x name : Str} {p : Parsed} {ms : List MatchRec}
    (hm : p.matchesF = some ms) (hcond : foundCond p = true)
    (hx : x <:+: foundHtml name p ms) : x <:+: buildHtml name p := by
  have hb : buildHtml name p =
      headerHtml ++ foundHtml name p ms ++ footerHtml := by
    simp [buildHtml, hcond, hm]
  rw [hb]
  exact infix_extend_right (infix_extend_left hx)

set_option maxHeartbeats 2000000 in
/-- C6: for a hit response with a non-empty match list the popup
contains the count banner "FOUND n MATCH[ES]", one block per match (in
list order, by the flatten of the enumerated list), each block headed
by its 1-based index and escaped full name; on the concrete two-match
response the page shows "FOUND 2 MATCHES" and block 1 appears before
block 2. -/
theorem render_found (name : Str) (p : Parsed) (ms : List MatchRec)
    (hm : p.matchesF = some ms) (hex : existsOf p = true)
    (hlen : 0 < ms.length) :
    bannerCore (countVal p ms) <:+: buildHtml name p ∧
    (∀ i (h : i < ms.length),
      blockFor i (ms.get ⟨i, h⟩) <:+: buildHtml name p) ∧
    (∀ i (h : i < ms.length),
      blockHead i (escapeHtml (ms.get ⟨i, h⟩).fullName) <:+:
        buildHtml name p) ∧
    strIncludes (buildHtml (lit ("x")) sampleFound2)
      (lit ("FOUND 2 MATCHES")) = true ∧
    firstIdx (lit ("1. Ali")) (buildHtml (lit ("x")) sampleFound2) <
      firstIdx (lit ("2. Reza")) (buildHtml (lit ("x")) sampleFound2) := by
  have hcond : foundCond p = true := by
    simp [foundCond, hm, hex, hlen]
  refine ⟨?_, ?_, ?_, by decide, by decide⟩
  · refine lift_found hm hcond ?_
    simp only [foundHtml]
    exact infix_extend_right (bannerCore_in_banner _ name)
  · intro i h
    exact lift_found hm hcond (blockFor_in_found name p ms i h)
  · intro i h
    exact lift_found hm hcond
      ((blockHead_in_block i (ms.get ⟨i, h⟩)).trans
        (blockFor_in_found name p ms i h))

/-- C6 witness: banner and first block of the concrete two-match
response. -/
theorem render_found_witness :
    bannerCore (countVal sampleFound2 [sampleMatchA, sampleMatchB]) <:+:
      buildHtml (lit ("x")) sampleFound2 ∧
    blockFor 0 ([sampleMatchA, sampleMatchB].get ⟨0, by decide⟩) <:+:
      buildHtml (lit ("x")) sampleFound2 :=
  ⟨(render_found (lit ("x")) sampleFound2 [sampleMatchA, sampleMatchB] rfl
      (by decide) (by decide)).1,
   (render_found (lit ("x")) sampleFound2 [sampleMatchA, sampleMatchB] rfl
      (by decide) (by decide)).2.1 0 (by decide)⟩
